import Mathlib

/-!
Shallow embedding of the pinned-TLS trust layer of the `reimagined-telegram`
repository (crates `tega-client`, `tega-bin`, `tega-types`), together with
theorems settling the specification claims about it.

Conventions of the embedding:
* a DER certificate (`rustls::Certificate`, a `Vec<u8>` newtype compared by
  byte equality) is a `List Nat` of its bytes;
* the external `webpki` calls made by the discovery verifier
  (`EndEntityCert::try_from` and `verify_is_valid_for_dns_name`) are modelled
  as boolean oracles passed in as parameters, since `webpki` is an external
  library whose parser is not part of this repository;
* the `tokio::select!` loop of `fetch_certificate` is modelled as a function
  over the sequence of readiness events it observes;
* fallible Rust code returning `Result` is modelled with `Except`, and the
  `assert_eq!` panic path of the client methods with an explicit outcome
  constructor.
-/

namespace Tega

/-- A DER-encoded X.509 certificate, as `rustls::Certificate`: an opaque byte
sequence compared by whole-value byte equality. -/
abbrev Cert := List Nat

/-- The handshake parameters other than the end-entity certificate that
`verify_server_cert` receives (`_intermediates`, `_server_name`, `_scts`,
`_ocsp_response`, `_now`). Both verifiers in the repository accept them but
never read them. -/
structure HandshakeParams where
  intermediates : List Cert
  serverName : String
  scts : List (List Nat)
  ocspResponse : List Nat
  now : Nat
deriving DecidableEq, Repr

/-- The `rustls::CertificateError` variants this repository constructs. -/
inductive CertificateError
  /-- `CertificateError::Other(Arc::new(ServerCertificateNotPermitted))`,
  the distinguishable "untrusted certificate" error of `PowerwallVerifier`. -/
  | otherServerCertificateNotPermitted
  /-- `CertificateError::BadEncoding`. -/
  | badEncoding
  /-- `CertificateError::NotValidForName`. -/
  | notValidForName
deriving DecidableEq, Repr

/-- The `rustls::Error` values this repository constructs. -/
inductive RustlsError
  | invalidCertificate (e : CertificateError)
deriving DecidableEq, Repr

/-- `rustls::client::ServerCertVerified` — the opaque acceptance token
produced by `ServerCertVerified::assertion()`. -/
inductive ServerCertVerified
  | assertion
deriving DecidableEq, Repr

/-- `PowerwallVerifier(Vec<Certificate>)`: the pinned verifier's state is the
trusted certificate set it was constructed with. -/
structure PowerwallVerifier where
  trusted : List Cert
deriving DecidableEq, Repr

/-- `PowerwallVerifier::verify_server_cert`: accept iff some member of the
trusted set is byte-equal to the presented end-entity certificate
(`self.0.iter().any(|cert| cert == end_entity)`); otherwise reject with
`InvalidCertificate(Other(ServerCertificateNotPermitted))`. The remaining
handshake parameters are accepted but unused. -/
def PowerwallVerifier.verify_server_cert (v : PowerwallVerifier)
    (end_entity : Cert) (_params : HandshakeParams) :
    Except RustlsError ServerCertVerified :=
  if v.trusted.any (fun cert => cert == end_entity) then
    .ok .assertion
  else
    .error (.invalidCertificate .otherServerCertificateNotPermitted)

end Tega

namespace Tega

/-- State of one `FetchCertificateVerifier` instance together with its
rendezvous channel: `senderPresent` models the
`Mutex<Option<oneshot::Sender<Certificate>>>` still holding the sender
(`take()` has not yet consumed it), and `channel` models the value, if any,
successfully sent through the `oneshot` channel. -/
structure FetchState where
  senderPresent : Bool
  channel : Option Cert
deriving DecidableEq, Repr

/-- The state at construction: `FetchCertificateVerifier(Mutex::new(Some(tx)))`
with an empty channel. -/
def FetchState.init : FetchState := ⟨true, none⟩

/-- `FetchCertificateVerifier::verify_server_cert`, parameterised by the two
external `webpki` calls it makes:
`parseEE` models `webpki::EndEntityCert::try_from(end_entity.0.as_ref())`
succeeding, and `validForTeg` models
`cert.verify_is_valid_for_dns_name("teg")` succeeding.

The body, in source order:
1. if the DER parse fails, return `Err(InvalidCertificate(BadEncoding))`
   (the `?` operator propagates this error — no send happens);
2. compute the DNS-name check and discard its result (`let _ = ...`);
3. `if let Some(sender) = sender.take() { let _ = sender.send(clone) }` —
   send the certificate iff the one-shot sender is still present;
4. return `Ok(ServerCertVerified::assertion())`.

Returns the rustls result together with the successor state. -/
def fetchVerifyServerCert (parseEE validForTeg : Cert → Bool)
    (end_entity : Cert) (_params : HandshakeParams) (s : FetchState) :
    Except RustlsError ServerCertVerified × FetchState :=
  if parseEE end_entity then
    let _nameCheck : Except RustlsError Unit :=
      if validForTeg end_entity then .ok () else
        .error (.invalidCertificate .notValidForName)
    if s.senderPresent then
      (.ok .assertion, { senderPresent := false, channel := some end_entity })
    else
      (.ok .assertion, s)
  else
    (.error (.invalidCertificate .badEncoding), s)

/-- Run a sequence of `verify_server_cert` invocations on one
`FetchCertificateVerifier` instance, threading its state. -/
def fetchRun (parseEE validForTeg : Cert → Bool)
    (certs : List Cert) (params : HandshakeParams) (s : FetchState) :
    FetchState :=
  certs.foldl (fun st c => (fetchVerifyServerCert parseEE validForTeg c params st).2) s

/-- An opaque `reqwest::Error` value, distinguished only by identity. -/
structure ReqwestError where
  code : Nat
deriving DecidableEq, Repr

/-- An opaque `reqwest::Response` value; its content is never inspected by
`fetch_certificate` (`let _ = response?` discards the success value). -/
structure HttpOk where
  code : Nat
deriving DecidableEq, Repr

/-- One readiness event observed by the `tokio::select!` expression inside
`fetch_certificate`: either the pinned `request` future resolving (with the
`reqwest::Result` it produced) or the pinned one-shot receiver `rx` yielding a
captured certificate. -/
inductive SelectEvent
  | requestDone (r : Except ReqwestError HttpOk)
  | certArrived (c : Cert)
deriving Repr

/-- The `loop { tokio::select! { ... } }` of `fetch_certificate`, applied to
the sequence of readiness events in the order the select observes them:
* `response = &mut request` with `Ok(_)`: `let _ = response?;` discards the
  response, prints, and `continue`s — the loop keeps waiting;
* `response = &mut request` with `Err(e)`: `let _ = response?;` propagates
  `e` out of `fetch_certificate` via the `?` operator;
* `Ok(certificate) = &mut rx`: `break certificate` ends the loop and
  `fetch_certificate` returns `Ok(certificate)`.

`none` means the event sequence was exhausted with the loop still waiting. -/
def fetchCertificateLoop : List SelectEvent → Option (Except ReqwestError Cert)
  | [] => none
  | .requestDone (.ok _) :: rest => fetchCertificateLoop rest
  | .requestDone (.error e) :: _ => some (.error e)
  | .certArrived c :: _ => some (.ok c)

end Tega

namespace Tega

/-- The body type of a decoded JSON response; opaque for the claims below
(stands for `LoginBasic`, `MetersAggregates`, `Status`, `Vec<Radio>`). -/
structure JsonBody where
  raw : List Nat
deriving DecidableEq, Repr

/-- An HTTP response as the client methods observe it: a status code and the
outcome of `response.json().await`. -/
structure HttpResponse where
  status : Nat
  json : Except ReqwestError JsonBody
deriving Repr

/-- The outcome of one call to a `Client` request method: a normal `Ok`, a
normal `Err` surfaced through the `Result` return type, or a panic raised by
a failed `assert_eq!`. -/
inductive MethodOutcome
  | ok (body : JsonBody)
  | err (e : ReqwestError)
  | panicked
deriving DecidableEq, Repr

/-- The response handling shared by all four `Client` request methods, applied
to the result of `send().await`:
`let response = ... .send().await?;` (an `Err` is returned through the
`Result`), then `assert_eq!(response.status(), StatusCode::OK);` (any status
other than 200 panics), then `let body = response.json().await?; Ok(body)`. -/
def clientHandleResponse (sent : Except ReqwestError HttpResponse) :
    MethodOutcome :=
  match sent with
  | .error e => .err e
  | .ok response =>
    if response.status = 200 then
      match response.json with
      | .ok body => .ok body
      | .error e => .err e
    else
      .panicked

/-- `Client::login`: POST to `/api/login/Basic`, then the shared
assert-then-decode response handling. -/
def Client.login (sent : Except ReqwestError HttpResponse) : MethodOutcome :=
  clientHandleResponse sent

/-- `Client::meters_aggregates`: GET `/api/meters/aggregates`, then the shared
assert-then-decode response handling. -/
def Client.meters_aggregates (sent : Except ReqwestError HttpResponse) :
    MethodOutcome :=
  clientHandleResponse sent

/-- `Client::status`: GET `/api/status`, then the shared assert-then-decode
response handling. -/
def Client.status (sent : Except ReqwestError HttpResponse) : MethodOutcome :=
  clientHandleResponse sent

/-- `Client::legal_radio`: GET `/api/legal/radio`, then the shared
assert-then-decode response handling. -/
def Client.legal_radio (sent : Except ReqwestError HttpResponse) :
    MethodOutcome :=
  clientHandleResponse sent

end Tega

namespace Tega

/-! ### PEM encoding and parsing

`main` re-encodes a captured certificate with
`pem::encode(&Pem::new("CERTIFICATE", bytes))` and
`load_certificates_from_pem` re-parses such text with
`rustls_pemfile::certs`. Both crates are external; they are modelled here at
the line level (a PEM document as its list of text lines, abstracting over
the line terminator, which `rustls_pemfile` strips in either CR LF or LF
form): standard base64 of the DER bytes, wrapped at 64 characters, between
a `BEGIN CERTIFICATE` line and an `END CERTIFICATE` line. -/

/-- The standard base64 alphabet, index 0 to 63: the uppercase letters, the
lowercase letters, the decimal digits, then plus and slash. -/
def b64Alphabet : List Char :=
  (List.range 26).map (fun n => Char.ofNat (65 + n)) ++
  (List.range 26).map (fun n => Char.ofNat (97 + n)) ++
  (List.range 10).map (fun n => Char.ofNat (48 + n)) ++ ['+', '/']

/-- The base64 character for a 6-bit group. -/
def b64Char (n : Nat) : Char := b64Alphabet.getD n 'A'

/-- The 6-bit group for a base64 character, `none` for a character outside
the alphabet. -/
def b64Index (c : Char) : Option Nat := b64Alphabet.indexOf? c

/-- Standard base64 encoding of a byte sequence, processed in 3-byte groups,
with `=` padding on a final 1-byte or 2-byte group. -/
def base64Encode : List Nat → List Char
  | [] => []
  | [a] => [b64Char (a / 4), b64Char (a % 4 * 16), '=', '=']
  | [a, b] => [b64Char (a / 4), b64Char (a % 4 * 16 + b / 16),
               b64Char (b % 16 * 4), '=']
  | a :: b :: c :: rest =>
      b64Char (a / 4) :: b64Char (a % 4 * 16 + b / 16) ::
      b64Char (b % 16 * 4 + c / 64) :: b64Char (c % 64) ::
      base64Encode rest

/-- Standard base64 decoding, processed in 4-character groups with `=`
padding allowed only in the final group; `none` on any malformed input. -/
def base64Decode : List Char → Option (List Nat)
  | [] => some []
  | w :: x :: y :: z :: rest =>
    match b64Index w, b64Index x with
    | some a, some b =>
      if y = '=' then
        if z = '=' ∧ rest = [] then some [a * 4 + b / 16] else none
      else
        match b64Index y with
        | some c =>
          if z = '=' then
            if rest = [] then some [a * 4 + b / 16, b % 16 * 16 + c / 4]
            else none
          else
            match b64Index z with
            | some d =>
              (base64Decode rest).map
                (fun t => (a * 4 + b / 16) :: (b % 16 * 16 + c / 4) ::
                          (c % 4 * 64 + d) :: t)
            | none => none
        | none => none
    | _, _ => none
  | _ => none

/-- Split a character sequence into lines of (at most) 64 characters, as the
PEM encoder wraps its base64 payload. -/
def chunk64 (l : List Char) : List (List Char) :=
  if l = [] then [] else l.take 64 :: chunk64 (l.drop 64)
termination_by l.length
decreasing_by
  simp only [List.length_drop]
  have h0 : l ≠ [] := by assumption
  have hpos : 0 < l.length := List.length_pos.mpr h0
  omega

/-- The `-----BEGIN CERTIFICATE-----` armour line. -/
def beginCertLine : List Char := String.toList "-----BEGIN CERTIFICATE-----"

/-- The `-----END CERTIFICATE-----` armour line. -/
def endCertLine : List Char := String.toList "-----END CERTIFICATE-----"

/-- `pem::encode(&Pem::new("CERTIFICATE", bytes))`, as its list of lines:
the begin armour, the base64 of the bytes wrapped at 64 characters, the end
armour. -/
def pemEncodeLines (bytes : List Nat) : List (List Char) :=
  beginCertLine :: (chunk64 (base64Encode bytes) ++ [endCertLine])

/-- Line-scanner state of `rustls_pemfile::certs`: `pending` is the base64
accumulated so far of a `BEGIN CERTIFICATE` section still awaiting its end
line, `found` the certificates decoded so far, `failed` whether a section's
base64 failed to decode. -/
structure PemScanState where
  pending : Option (List Char)
  found : List Cert
  failed : Bool
deriving DecidableEq, Repr

/-- One line of the `rustls_pemfile` scan: outside a section, only a
`BEGIN CERTIFICATE` line opens one (other lines are skipped); inside a
section, the `END CERTIFICATE` line base64-decodes the accumulated payload
and emits the certificate, and every other line extends the payload. -/
def pemScanLine (st : PemScanState) (line : List Char) : PemScanState :=
  if st.failed then st
  else
    match st.pending with
    | none => if line = beginCertLine then { st with pending := some [] } else st
    | some buf =>
      if line = endCertLine then
        match base64Decode buf with
        | some bytes => { st with pending := none, found := st.found ++ [bytes] }
        | none => { st with failed := true }
      else
        { st with pending := some (buf ++ line) }

/-- `load_certificates_from_pem`, at the line level: run the
`rustls_pemfile::certs` scan over the lines; an undecodable section or an
end of input inside an open section is an error (`none`), otherwise the list
of certificates found. -/
def load_certificates_from_pem (lines : List (List Char)) :
    Option (List Cert) :=
  let fin := lines.foldl pemScanLine ⟨none, [], false⟩
  if fin.failed then none
  else match fin.pending with
    | some _ => none
    | none => some fin.found

end Tega

namespace Tega

/-! ### Hexadecimal hash encoding (`tega_types::serde::hash`) -/

/-- The `data_encoding::HEXLOWER` alphabet, index 0 to 15: the decimal digits
then the lowercase letters a to f. -/
def hexAlphabet : List Char :=
  (List.range 10).map (fun n => Char.ofNat (48 + n)) ++
  (List.range 6).map (fun n => Char.ofNat (97 + n))

/-- The lowercase hex character for a 4-bit group. -/
def hexChar (n : Nat) : Char := hexAlphabet.getD n '0'

/-- The 4-bit group for a lowercase hex character, `none` for any other
character (`HEXLOWER` rejects uppercase digits). -/
def hexIndex (c : Char) : Option Nat := hexAlphabet.indexOf? c

/-- `hash::serialize`: `HEXLOWER.encode_mut` of the 20 hash bytes into a
40-character string — each byte becomes its high then its low hex digit. -/
def hashSerialize (hash : List Nat) : List Char :=
  hash.flatMap (fun b => [hexChar (b / 16), hexChar (b % 16)])

/-- Decode a lowercase hex string two characters at a time, `none` on a
non-hex character or an odd length. -/
def hexDecodePairs : List Char → Option (List Nat)
  | [] => some []
  | c1 :: c2 :: rest =>
    match hexIndex c1, hexIndex c2 with
    | some hi, some lo => (hexDecodePairs rest).map (fun t => (hi * 16 + lo) :: t)
    | _, _ => none
  | _ => none

/-- `hash::deserialize`: `HEXLOWER.decode_mut` of the string's bytes into a
fixed `[0u8; 20]` buffer — the input must be exactly 40 lowercase hex
characters, and decodes two characters to a byte. -/
def hashDeserialize (s : List Char) : Option (List Nat) :=
  if s.length = 40 then hexDecodePairs s else none

/-- A concrete set of handshake parameters, for instantiating theorems. -/
def sampleParams : HandshakeParams := ⟨[], "teg", [], [], 0⟩

end Tega

namespace Tega

/-! ### Claims about the pinned verifier -/

/-- C1: for every trusted certificate set `S` and presented leaf certificate
`c`, `PowerwallVerifier::verify_server_cert` accepts iff `c` is byte-identical
to some member of `S`, a rejection is the distinguishable
`ServerCertificateNotPermitted` error, and with an empty set every certificate
is rejected. -/
theorem pinned_verifier_accepts_iff_member (S : List Cert) (c : Cert)
    (p : HandshakeParams) :
    (({ trusted := S } : PowerwallVerifier).verify_server_cert c p
        = if c ∈ S then .ok .assertion
          else .error (.invalidCertificate .otherServerCertificateNotPermitted))
    ∧ ({ trusted := [] } : PowerwallVerifier).verify_server_cert c p
        = .error (.invalidCertificate .otherServerCertificateNotPermitted) := by
  constructor
  · by_cases h : c ∈ S <;>
      simp [PowerwallVerifier.verify_server_cert, List.any_eq_true, h]
  · simp [PowerwallVerifier.verify_server_cert]

/-- C7: the pinned verifier's decision depends only on the presented
end-entity certificate and the trusted set — two invocations differing in
intermediates, server name, SCTs, OCSP response and timestamp produce the
identical result. -/
theorem pinned_verifier_ignores_other_params (v : PowerwallVerifier)
    (c : Cert) (p q : HandshakeParams) :
    v.verify_server_cert c p = v.verify_server_cert c q := rfl

/-! ### Claims about the client request methods -/

/-- C9: whenever the HTTP exchange of `login`, `meters_aggregates`, `status`
or `legal_radio` completes with a status other than 200 OK, the method
panics via the failed `assert_eq!` rather than returning an `Err` through
its `Result` type. -/
theorem client_methods_panic_on_non_200 (s : Nat)
    (j : Except ReqwestError JsonBody) (h : s ≠ 200) :
    Client.login (.ok ⟨s, j⟩) = .panicked
  ∧ Client.meters_aggregates (.ok ⟨s, j⟩) = .panicked
  ∧ Client.status (.ok ⟨s, j⟩) = .panicked
  ∧ Client.legal_radio (.ok ⟨s, j⟩) = .panicked
  ∧ (∀ e : ReqwestError, (MethodOutcome.panicked : MethodOutcome) ≠ .err e) := by
  refine ⟨?_, ?_, ?_, ?_, fun e he => MethodOutcome.noConfusion he⟩ <;>
    simp [Client.login, Client.meters_aggregates, Client.status,
      Client.legal_radio, clientHandleResponse, h]

/-- Witness for C9 at status 404. -/
theorem client_methods_panic_on_non_200_witness :
    Client.login (.ok ⟨404, .ok ⟨[]⟩⟩) = .panicked :=
  (client_methods_panic_on_non_200 404 (.ok ⟨[]⟩) (by decide)).1

/-! ### Claims about the discovery verifier -/

/-- C2 counterexample: the discovery verifier does not accept every
presented certificate. Its first statement is
`webpki::EndEntityCert::try_from(end_entity.0.as_ref()).map_err(...)?`, so a
certificate that does not parse as a DER end-entity certificate — such as the
empty byte string, which `webpki` rejects (the parse oracle here reflects
that) — makes `verify_server_cert` return
`Err(InvalidCertificate(BadEncoding))` instead of Accepted. -/
theorem discovery_verifier_rejects_unparseable :
    (fetchVerifyServerCert (fun _ => false) (fun _ => true) [] sampleParams
        FetchState.init).1
      = .error (.invalidCertificate .badEncoding) := rfl

/-- C2 (amended): the discovery verifier returns Accepted for every presented
certificate that parses as a DER end-entity certificate, and returns the
`BadEncoding` error for every certificate that fails that parse. -/
theorem discovery_verifier_accepts_parseable (parseEE validForTeg : Cert → Bool)
    (c : Cert) (p : HandshakeParams) (s : FetchState) :
    (parseEE c = true →
        (fetchVerifyServerCert parseEE validForTeg c p s).1 = .ok .assertion)
  ∧ (parseEE c = false →
        (fetchVerifyServerCert parseEE validForTeg c p s).1
          = .error (.invalidCertificate .badEncoding)) := by
  constructor <;> intro h
  · cases hs : s.senderPresent <;> simp [fetchVerifyServerCert, h, hs]
  · simp [fetchVerifyServerCert, h]

/-- Witness for C2 (amended): a parseable certificate is accepted, an
unparseable one gets `BadEncoding`. -/
theorem discovery_verifier_accepts_parseable_witness :
    (fetchVerifyServerCert (fun _ => true) (fun _ => true) [48] sampleParams
        FetchState.init).1 = .ok .assertion
  ∧ (fetchVerifyServerCert (fun _ => false) (fun _ => false) [] sampleParams
        FetchState.init).1 = .error (.invalidCertificate .badEncoding) :=
  ⟨(discovery_verifier_accepts_parseable (fun _ => true) (fun _ => true) [48]
      sampleParams FetchState.init).1 rfl,
   (discovery_verifier_accepts_parseable (fun _ => false) (fun _ => false) []
      sampleParams FetchState.init).2 rfl⟩

/-- C8: for a DER-parseable presented certificate, the result of the
`verify_is_valid_for_dns_name("teg")` check is discarded (`let _ = ...`), so
it has no effect on the verifier's result or its side effect: with any two
outcomes of that check the verifier produces the identical result and
successor state, still returns Accepted, and still forwards the certificate
through the rendezvous channel when the sender is available. -/
theorem discovery_name_check_has_no_effect (parseEE v1 v2 : Cert → Bool)
    (c : Cert) (p : HandshakeParams) (s : FetchState) (h : parseEE c = true) :
    fetchVerifyServerCert parseEE v1 c p s = fetchVerifyServerCert parseEE v2 c p s
  ∧ (fetchVerifyServerCert parseEE v1 c p s).1 = .ok .assertion
  ∧ (s.senderPresent = true →
      (fetchVerifyServerCert parseEE v1 c p s).2.channel = some c) := by
  refine ⟨?_, ?_, ?_⟩
  · simp [fetchVerifyServerCert, h]
  · cases hs : s.senderPresent <;> simp [fetchVerifyServerCert, h, hs]
  · intro hs
    simp [fetchVerifyServerCert, h, hs]

/-- Witness for C8: a name-check that succeeds and one that fails produce the
same accepting, forwarding behaviour. -/
theorem discovery_name_check_has_no_effect_witness :
    fetchVerifyServerCert (fun _ => true) (fun _ => true) [48] sampleParams
        FetchState.init
      = fetchVerifyServerCert (fun _ => true) (fun _ => false) [48] sampleParams
        FetchState.init
  ∧ (fetchVerifyServerCert (fun _ => true) (fun _ => true) [48] sampleParams
        FetchState.init).2.channel = some [48] :=
  ⟨(discovery_name_check_has_no_effect (fun _ => true) (fun _ => true)
      (fun _ => false) [48] sampleParams FetchState.init rfl).1,
   (discovery_name_check_has_no_effect (fun _ => true) (fun _ => true)
      (fun _ => false) [48] sampleParams FetchState.init rfl).2.2 rfl⟩

/-! ### Claims about the select loop of `fetch_certificate` -/

/-- C3 counterexample: completion of the underlying HTTPS request is not
always ignored. When the request future resolves with an error, the loop body
`let _ = response?;` propagates that error out of `fetch_certificate`
immediately: the wait ends (with `Err`) even though no certificate ever
arrived on the rendezvous channel. -/
theorem select_loop_error_ends_wait :
    fetchCertificateLoop [.requestDone (.error ⟨7⟩)] = some (.error ⟨7⟩)
  ∧ fetchCertificateLoop [.requestDone (.error ⟨7⟩)] ≠ none :=
  ⟨rfl, by simp [fetchCertificateLoop]⟩

/-- C3 (amended): a successful completion of the underlying request is
discarded and the loop goes back to waiting; an error completion ends the
wait by propagating the error through `?`; arrival of a certificate on the
rendezvous channel ends the wait with that certificate. -/
theorem select_loop_behaviour (r : HttpOk) (e : ReqwestError) (c : Cert)
    (rest : List SelectEvent) :
    fetchCertificateLoop (.requestDone (.ok r) :: rest) = fetchCertificateLoop rest
  ∧ fetchCertificateLoop (.requestDone (.error e) :: rest) = some (.error e)
  ∧ fetchCertificateLoop (.certArrived c :: rest) = some (.ok c) :=
  ⟨rfl, rfl, rfl⟩

/-- C5 counterexample: when the handshake fails before the verifier runs
(the request future resolves with an error and the channel never yields),
`fetch_certificate` returns the underlying transport error itself — the
returned error varies with the transport error, so there is no single
distinct "no certificate observed" error value it reports. -/
theorem no_distinct_no_certificate_error :
    fetchCertificateLoop [.requestDone (.error ⟨0⟩)] = some (.error ⟨0⟩)
  ∧ fetchCertificateLoop [.requestDone (.error ⟨1⟩)] = some (.error ⟨1⟩)
  ∧ ¬ ∃ nco : ReqwestError, ∀ e : ReqwestError,
        fetchCertificateLoop [.requestDone (.error e)] = some (.error nco) := by
  refine ⟨rfl, rfl, ?_⟩
  rintro ⟨nco, h⟩
  have h01 := (h ⟨0⟩).trans (h ⟨1⟩).symm
  simp [fetchCertificateLoop] at h01

/-- C5 (amended): in the handshake-failure scenario the orchestrator does
terminate rather than hang, but the error it reports is the propagated
transport error itself, not a distinct "no certificate observed" error. -/
theorem handshake_failure_propagates_transport_error (e : ReqwestError) :
    fetchCertificateLoop [.requestDone (.error e)] = some (.error e)
  ∧ fetchCertificateLoop [.requestDone (.error e)] ≠ none :=
  ⟨rfl, by simp [fetchCertificateLoop]⟩

/-! ### Claims about the capture discipline across invocations -/

/-- Once the one-shot sender has been consumed, further invocations leave the
verifier state unchanged, whatever certificates are presented. -/
theorem fetchRun_sender_consumed (parseEE validForTeg : Cert → Bool)
    (cs : List Cert) (p : HandshakeParams) (ch : Option Cert) :
    fetchRun parseEE validForTeg cs p ⟨false, ch⟩ = ⟨false, ch⟩ := by
  induction cs with
  | nil => rfl
  | cons c rest ih =>
    have hstep : (fetchVerifyServerCert parseEE validForTeg c p ⟨false, ch⟩).2
        = ⟨false, ch⟩ := by
      by_cases h : parseEE c = true <;> simp [fetchVerifyServerCert, h]
    simpa [fetchRun, List.foldl_cons, hstep] using ih

/-- While the sender is still present, the channel after a run holds the
first presented certificate that passes the DER parse (and the original
channel value if none does). -/
theorem fetchRun_channel_or (parseEE validForTeg : Cert → Bool)
    (cs : List Cert) (p : HandshakeParams) (ch : Option Cert) :
    (fetchRun parseEE validForTeg cs p ⟨true, ch⟩).channel
      = ((cs.filter (fun c => parseEE c)).head?).or ch := by
  induction cs generalizing ch with
  | nil => rfl
  | cons c rest ih =>
    by_cases h : parseEE c = true
    · have hstep : (fetchVerifyServerCert parseEE validForTeg c p ⟨true, ch⟩).2
          = ⟨false, some c⟩ := by simp [fetchVerifyServerCert, h]
      have hrest := fetchRun_sender_consumed parseEE validForTeg rest p (some c)
      simp [fetchRun, List.foldl_cons, hstep, List.filter_cons, h, Option.or] at *
      simpa [fetchRun] using congrArg FetchState.channel hrest
    · have hstep : (fetchVerifyServerCert parseEE validForTeg c p ⟨true, ch⟩).2
          = ⟨true, ch⟩ := by simp [fetchVerifyServerCert, h]
      simpa [fetchRun, List.foldl_cons, hstep, List.filter_cons, h] using ih ch

/-- C4 counterexample: the value captured is not always the first certificate
the TLS layer presented, and a later invocation with a different certificate
is not always a silent no-op. `webpki` rejects both the empty byte string and
the single byte `0x00` as DER end-entity certificates (the parse oracle here
reflects that), so over the invocation sequence `[[], [0x00]]` starting from
the freshly constructed verifier, the second invocation — with a certificate
different from the first — returns the `BadEncoding` error rather than being
a silent no-op, and the run sends nothing at all, so the value sent is not
the first certificate presented. -/
theorem discovery_capture_counterexample :
    (fetchVerifyServerCert (fun _ => false) (fun _ => true) [0] sampleParams
        (fetchVerifyServerCert (fun _ => false) (fun _ => true) [] sampleParams
          FetchState.init).2).1
      = .error (.invalidCertificate .badEncoding)
  ∧ (fetchRun (fun _ => false) (fun _ => true) [[], [0]] sampleParams
        FetchState.init).channel = none :=
  ⟨rfl, rfl⟩

/-- C4 (amended): across every sequence of invocations on one discovery
verifier instance, at most one send through the rendezvous channel succeeds:
the channel after the run holds exactly the first presented certificate that
passes the DER parse (so when every presented certificate parses, the first
certificate presented), and `none` if no presented certificate parses.
Moreover, once the sender has been consumed, a later invocation with a
parseable certificate is a silent no-op: it still returns Accepted and leaves
the state — in particular the first capture — unchanged. -/
theorem discovery_capture_first_parseable (parseEE validForTeg : Cert → Bool)
    (cs : List Cert) (p : HandshakeParams) :
    (fetchRun parseEE validForTeg cs p FetchState.init).channel
      = (cs.filter (fun c => parseEE c)).head?
  ∧ (∀ c : Cert, parseEE c = true → ∀ ch : Option Cert,
      fetchVerifyServerCert parseEE validForTeg c p ⟨false, ch⟩
        = (.ok .assertion, ⟨false, ch⟩)) := by
  constructor
  · have h := fetchRun_channel_or parseEE validForTeg cs p none
    cases hh : (cs.filter (fun c => parseEE c)).head? <;>
      simpa [FetchState.init, hh, Option.or] using h
  · intro c hc ch
    simp [fetchVerifyServerCert, hc]

/-- Witness for C4 (amended): with two parseable certificates presented in
order, the channel holds the first; a third invocation after the sender is
consumed is an accepting no-op. -/
theorem discovery_capture_first_parseable_witness :
    (fetchRun (fun _ => true) (fun _ => true) [[5], [6]] sampleParams
        FetchState.init).channel = some [5]
  ∧ fetchVerifyServerCert (fun _ => true) (fun _ => true) [7] sampleParams
        ⟨false, some [5]⟩ = (.ok .assertion, ⟨false, some [5]⟩) :=
  ⟨((discovery_capture_first_parseable (fun _ => true) (fun _ => true)
      [[5], [6]] sampleParams).1).trans rfl,
   (discovery_capture_first_parseable (fun _ => true) (fun _ => true)
      [[5], [6]] sampleParams).2 [7] rfl (some [5])⟩

end Tega

namespace Tega

/-! ### The hash text encoding -/

/-- Decoding inverts the hex digit encoding on every 4-bit group. -/
theorem hexIndex_hexChar : ∀ n < 16, hexIndex (hexChar n) = some n := by
  decide

/-- Every hex digit the encoder emits is a lowercase hex character. -/
theorem hexChar_mem_alphabet : ∀ n < 16, hexChar n ∈ hexAlphabet := by
  decide

/-- The serialized hash has two characters per byte. -/
theorem hashSerialize_length (h : List Nat) :
    (hashSerialize h).length = 2 * h.length := by
  induction h with
  | nil => rfl
  | cons b t ih =>
    simp [hashSerialize, List.flatMap_cons] at *
    omega

/-- Pairwise decoding inverts the serialization, byte by byte. -/
theorem hexDecodePairs_hashSerialize (h : List Nat) (hb : ∀ b ∈ h, b < 256) :
    hexDecodePairs (hashSerialize h) = some h := by
  induction h with
  | nil => rfl
  | cons b t ih =>
    have hblt : b < 256 := hb b (by simp)
    have h1 : hexIndex (hexChar (b / 16)) = some (b / 16) :=
      hexIndex_hexChar _ (by omega)
    have h2 : hexIndex (hexChar (b % 16)) = some (b % 16) :=
      hexIndex_hexChar _ (by omega)
    have iht := ih (fun x hx => hb x (by simp [hx]))
    rw [show hashSerialize (b :: t)
        = hexChar (b / 16) :: hexChar (b % 16) :: hashSerialize t from rfl]
    simp [hexDecodePairs, h1, h2, iht]
    omega

/-- C10: for every 20-byte hash, `hash::serialize` produces exactly 40
characters, all lowercase hexadecimal, and `hash::deserialize` applied to
that string returns the original bytes. -/
theorem hash_text_roundtrip (h : List Nat) (hlen : h.length = 20)
    (hb : ∀ b ∈ h, b < 256) :
    (hashSerialize h).length = 40
  ∧ (∀ ch ∈ hashSerialize h, ch ∈ hexAlphabet)
  ∧ hashDeserialize (hashSerialize h) = some h := by
  have hl : (hashSerialize h).length = 40 := by
    rw [hashSerialize_length, hlen]
  refine ⟨hl, ?_, ?_⟩
  · intro ch hch
    simp only [hashSerialize, List.mem_flatMap] at hch
    obtain ⟨b, hbmem, hchmem⟩ := hch
    have hblt : b < 256 := hb b hbmem
    have : ch = hexChar (b / 16) ∨ ch = hexChar (b % 16) := by
      simpa using hchmem
    rcases this with rfl | rfl
    · exact hexChar_mem_alphabet _ (by omega)
    · exact hexChar_mem_alphabet _ (by omega)
  · rw [hashDeserialize, if_pos hl]
    exact hexDecodePairs_hashSerialize h hb

/-- Witness for C10 at a concrete 20-byte hash. -/
theorem hash_text_roundtrip_witness :
    hashDeserialize (hashSerialize
        [0, 17, 34, 51, 68, 85, 102, 119, 136, 153,
         170, 187, 204, 221, 238, 255, 1, 2, 3, 4])
      = some [0, 17, 34, 51, 68, 85, 102, 119, 136, 153,
              170, 187, 204, 221, 238, 255, 1, 2, 3, 4] :=
  (hash_text_roundtrip
    [0, 17, 34, 51, 68, 85, 102, 119, 136, 153,
     170, 187, 204, 221, 238, 255, 1, 2, 3, 4]
    (by decide) (by decide)).2.2

end Tega

namespace Tega

/-! ### The PEM round trip -/

/-- Decoding inverts the base64 digit encoding on every 6-bit group. -/
theorem b64Index_b64Char : ∀ n < 64, b64Index (b64Char n) = some n := by
  decide

/-- No base64 digit is the padding character. -/
theorem b64Char_ne_pad : ∀ n < 64, b64Char n ≠ '=' := by
  decide

/-- No base64 digit is the dash that armour lines start with. -/
theorem b64Char_ne_dash : ∀ n, b64Char n ≠ '-' := by
  intro n
  by_cases h : n < 64
  · revert n h
    decide
  · have : b64Char n = 'A' := by
      rw [b64Char, List.getD_eq_default]
      simp [b64Alphabet]
      omega
    rw [this]
    decide

/-- Base64 decoding inverts base64 encoding on byte sequences. -/
theorem base64_decode_encode : ∀ l : List Nat, (∀ b ∈ l, b < 256) →
    base64Decode (base64Encode l) = some l
  | [], _ => rfl
  | [a], hb => by
    have ha : a < 256 := hb a (by simp)
    have h1 := b64Index_b64Char (a / 4) (by omega)
    have h2 := b64Index_b64Char (a % 4 * 16) (by omega)
    rw [show base64Encode [a]
        = [b64Char (a / 4), b64Char (a % 4 * 16), '=', '='] from rfl]
    simp [base64Decode, h1, h2]
    omega
  | [a, b], hb => by
    have ha : a < 256 := hb a (by simp)
    have hb2 : b < 256 := hb b (by simp)
    have h1 := b64Index_b64Char (a / 4) (by omega)
    have h2 := b64Index_b64Char (a % 4 * 16 + b / 16) (by omega)
    have h3 := b64Index_b64Char (b % 16 * 4) (by omega)
    have hy : b64Char (b % 16 * 4) ≠ '=' := b64Char_ne_pad _ (by omega)
    rw [show base64Encode [a, b]
        = [b64Char (a / 4), b64Char (a % 4 * 16 + b / 16),
           b64Char (b % 16 * 4), '='] from rfl]
    simp [base64Decode, h1, h2, h3, hy]
    constructor <;> omega
  | a :: b :: c :: rest, hb => by
    have ha : a < 256 := hb a (by simp)
    have hb2 : b < 256 := hb b (by simp)
    have hc : c < 256 := hb c (by simp)
    have iht := base64_decode_encode rest (fun x hx => hb x (by simp [hx]))
    have h1 := b64Index_b64Char (a / 4) (by omega)
    have h2 := b64Index_b64Char (a % 4 * 16 + b / 16) (by omega)
    have h3 := b64Index_b64Char (b % 16 * 4 + c / 64) (by omega)
    have h4 := b64Index_b64Char (c % 64) (by omega)
    have hy : b64Char (b % 16 * 4 + c / 64) ≠ '=' := b64Char_ne_pad _ (by omega)
    have hz : b64Char (c % 64) ≠ '=' := b64Char_ne_pad _ (by omega)
    rw [show base64Encode (a :: b :: c :: rest)
        = b64Char (a / 4) :: b64Char (a % 4 * 16 + b / 16) ::
          b64Char (b % 16 * 4 + c / 64) :: b64Char (c % 64) ::
          base64Encode rest from rfl]
    simp [base64Decode, h1, h2, h3, h4, hy, hz, iht]
    refine ⟨by omega, by omega, by omega⟩

/-- Every character of a base64 encoding is a digit or padding — never the
dash that armour lines start with. -/
theorem base64Encode_no_dash : ∀ l : List Nat,
    ∀ ch ∈ base64Encode l, ch ≠ '-'
  | [], _ => by simp [base64Encode]
  | [a], ch => by
    rw [show base64Encode [a]
        = [b64Char (a / 4), b64Char (a % 4 * 16), '=', '='] from rfl]
    intro hch
    simp at hch
    rcases hch with rfl | rfl | rfl
    · exact b64Char_ne_dash _
    · exact b64Char_ne_dash _
    · decide
  | [a, b], ch => by
    rw [show base64Encode [a, b]
        = [b64Char (a / 4), b64Char (a % 4 * 16 + b / 16),
           b64Char (b % 16 * 4), '='] from rfl]
    intro hch
    simp at hch
    rcases hch with rfl | rfl | rfl | rfl
    · exact b64Char_ne_dash _
    · exact b64Char_ne_dash _
    · exact b64Char_ne_dash _
    · decide
  | a :: b :: c :: rest, ch => by
    rw [show base64Encode (a :: b :: c :: rest)
        = b64Char (a / 4) :: b64Char (a % 4 * 16 + b / 16) ::
          b64Char (b % 16 * 4 + c / 64) :: b64Char (c % 64) ::
          base64Encode rest from rfl]
    intro hch
    simp only [List.mem_cons] at hch
    rcases hch with rfl | rfl | rfl | rfl | hmem
    · exact b64Char_ne_dash _
    · exact b64Char_ne_dash _
    · exact b64Char_ne_dash _
    · exact b64Char_ne_dash _
    · exact base64Encode_no_dash rest ch hmem

/-- Joining the 64-character wrapping recovers the unwrapped payload. -/
theorem chunk64_flatten (s : List Char) : (chunk64 s).flatten = s := by
  generalize hn : s.length = n
  induction n using Nat.strong_induction_on generalizing s with
  | _ n ih =>
    by_cases h : s = []
    · simp [chunk64, h]
    · rw [chunk64, if_neg h]
      have hpos : 0 < s.length := List.length_pos.mpr h
      have hlen : (s.drop 64).length < n := by
        rw [List.length_drop]
        omega
      have hrec := ih _ hlen (s.drop 64) rfl
      simp only [List.flatten_cons, hrec]
      exact List.take_append_drop 64 s

/-- Every character on a wrapped line comes from the unwrapped payload. -/
theorem chunk64_chars (s : List Char) :
    ∀ line ∈ chunk64 s, ∀ ch ∈ line, ch ∈ s := by
  generalize hn : s.length = n
  induction n using Nat.strong_induction_on generalizing s with
  | _ n ih =>
    by_cases h : s = []
    · simp [chunk64, h]
    · rw [chunk64, if_neg h]
      intro line hline ch hch
      have hpos : 0 < s.length := List.length_pos.mpr h
      rcases List.mem_cons.mp hline with rfl | hmem
      · exact List.take_subset 64 s hch
      · have hlen : (s.drop 64).length < n := by
          rw [List.length_drop]
          omega
        exact List.drop_subset 64 s (ih _ hlen (s.drop 64) rfl line hmem ch hch)

/-- Inside an open certificate section, the scan accumulates every
non-armour line into the pending base64 payload. -/
theorem pemScan_collect (ls : List (List Char)) : ∀ (buf : List Char)
    (found : List Cert), (∀ line ∈ ls, line ≠ endCertLine) →
    ls.foldl pemScanLine ⟨some buf, found, false⟩
      = ⟨some (buf ++ ls.flatten), found, false⟩ := by
  induction ls with
  | nil =>
    intro buf found _
    simp
  | cons line rest ih =>
    intro buf found hne
    have hl : line ≠ endCertLine := hne line (by simp)
    have hstep : pemScanLine ⟨some buf, found, false⟩ line
        = ⟨some (buf ++ line), found, false⟩ := by
      simp [pemScanLine, hl]
    rw [List.foldl_cons, hstep,
      ih (buf ++ line) found (fun l hl2 => hne l (by simp [hl2]))]
    simp [List.flatten_cons, List.append_assoc]

/-- Re-parsing the PEM re-encoding of a certificate recovers exactly that
certificate. -/
theorem load_pem_roundtrip (bytes : List Nat) (hb : ∀ b ∈ bytes, b < 256) :
    load_certificates_from_pem (pemEncodeLines bytes) = some [bytes] := by
  have hne : ∀ line ∈ chunk64 (base64Encode bytes), line ≠ endCertLine := by
    intro line hline heq
    have hdash : '-' ∈ line := by
      rw [heq]
      decide
    exact base64Encode_no_dash bytes '-'
      (chunk64_chars (base64Encode bytes) line hline '-' hdash) rfl
  have hstep0 : pemScanLine ⟨none, [], false⟩ beginCertLine
      = ⟨some [], [], false⟩ := by
    simp [pemScanLine]
  have hdec : base64Decode (chunk64 (base64Encode bytes)).flatten
      = some bytes := by
    rw [chunk64_flatten]
    exact base64_decode_encode bytes hb
  have hstepend :
      pemScanLine ⟨some ([] ++ (chunk64 (base64Encode bytes)).flatten), [], false⟩
        endCertLine = ⟨none, [bytes], false⟩ := by
    simp [pemScanLine, hdec]
  rw [load_certificates_from_pem, pemEncodeLines, List.foldl_cons, hstep0,
    List.foldl_append, pemScan_collect _ [] [] hne, List.foldl_cons,
    List.foldl_nil, hstepend]
  rfl

/-- C6: for every captured certificate, re-encoding it to PEM
(`pem::encode` of a `CERTIFICATE` block), re-parsing with
`load_certificates_from_pem`, and building a pinned verifier from the
resulting set yields a verifier that accepts a presented certificate with the
identical original bytes. -/
theorem pem_roundtrip_pinned_accepts (bytes : List Nat)
    (hb : ∀ b ∈ bytes, b < 256) (p : HandshakeParams) :
    load_certificates_from_pem (pemEncodeLines bytes) = some [bytes]
  ∧ ({ trusted := [bytes] } : PowerwallVerifier).verify_server_cert bytes p
      = .ok .assertion := by
  refine ⟨load_pem_roundtrip bytes hb, ?_⟩
  simp [PowerwallVerifier.verify_server_cert]

/-- Witness for C6 at a concrete captured certificate. -/
theorem pem_roundtrip_pinned_accepts_witness :
    load_certificates_from_pem (pemEncodeLines [48, 130, 1, 10, 255])
      = some [[48, 130, 1, 10, 255]]
  ∧ ({ trusted := [[48, 130, 1, 10, 255]] } : PowerwallVerifier).verify_server_cert
      [48, 130, 1, 10, 255] sampleParams = .ok .assertion :=
  pem_roundtrip_pinned_accepts [48, 130, 1, 10, 255] (by decide) sampleParams

end Tega
